import Mathlib

/-!
Verification of the content-stream text extractor (src/extract_pdf_text.py).

The Python source is shallowly embedded as follows.

* A Python `bytes`/`bytearray` value is a `List Nat` of byte values
  (each `< 256` by the Python type; the embedding carries plain `Nat`s).
* A Python `str` is a `List Nat` of Unicode code points.  Every string the
  program builds comes from `bytes.decode('latin-1', errors='ignore')`,
  which maps byte `b` to code point `b` and never fails, so the decode
  step is the identity on these lists.
* The scanners index a fixed buffer with a cursor `i`; the embedding
  passes the remaining suffix `data[i:]` instead, so "the position just
  past X" becomes "the suffix just past X".
* A scanning loop whose body can fail to advance the cursor is given an
  explicit iteration budget (`fuel`, one unit per loop iteration) and a
  result type `Res` that separates a normal return, a raised Python
  exception, and an exhausted budget.  `readArrayGo`/`tokenizeGo` use it;
  a run that returns `Res.spin` for every budget models non-termination.
* `bytearray.append v` raises `ValueError` unless `v < 256`; `byteAppend`
  models it with an `Option`, and `read_string` propagates the failure
  as `none`.
-/

/-- WHITESPACE = set(b" \t\r\n\x0c\x00") from the source. -/
def isWS (c : Nat) : Bool :=
  c = 0x20 || c = 0x09 || c = 0x0d || c = 0x0a || c = 0x0c || c = 0x00

/-- Membership in the delimiter bytes b"[]()<>{}" (lines 135, 181 use it
without the slash; lines 139, 187 add the slash separately). -/
def isDelim (c : Nat) : Bool :=
  c = 0x5b || c = 0x5d || c = 0x28 || c = 0x29 || c = 0x3c || c = 0x3e ||
  c = 0x7b || c = 0x7d

/-- Code points of a Lean string literal: literal helper for byte/str lists. -/
def strBytes (s : String) : List Nat := s.data.map Char.toNat

/-- esc in b"nrtbf()\\" (line 21). -/
def isSimpleEsc (e : Nat) : Bool :=
  e = 0x6e || e = 0x72 || e = 0x74 || e = 0x62 || e = 0x66 ||
  e = 0x28 || e = 0x29 || e = 0x5c

/-- The escape mapping of lines 22-31: n r t b f map to their control
characters, ( ) \ map to themselves; encoded back to latin-1 this is the
byte written into the buffer. -/
def escByte (e : Nat) : Nat :=
  if e = 0x6e then 0x0a
  else if e = 0x72 then 0x0d
  else if e = 0x74 then 0x09
  else if e = 0x62 then 0x08
  else if e = 0x66 then 0x0c
  else e

/-- ord('0') <= c <= ord('7') (lines 33, 38). -/
def isOct (c : Nat) : Bool := 0x30 ≤ c && c ≤ 0x37

/-- int(bytes(oct_digits), 8) for a list of octal digit bytes (line 44). -/
def octVal (ds : List Nat) : Nat := ds.foldl (fun a d => a * 8 + (d - 0x30)) 0

/-- bytearray.append (line 44): raises ValueError (here: `none`) unless the
value fits in a byte.  The other appends in `read_string` store bytes taken
from the input buffer, which are below 256 by the Python bytes type. -/
def byteAppend (buf : List Nat) (v : Nat) : Option (List Nat) :=
  if v < 256 then some (buf ++ [v]) else none

/-- Loop of read_string (lines 14-58): `data` is the unread suffix, `depth`
the parenthesis nesting depth, `buf` the bytes accumulated so far.  Returns
the final buffer and the suffix just past the closing parenthesis, or `none`
when the octal append raises. -/
def readStringGo (data : List Nat) (depth : Nat) (buf : List Nat) :
    Option (List Nat × List Nat) :=
  match data with
  | [] => some (buf, [])
  | c :: rest =>
    if c = 0x5c then
      match rest with
      | [] => some (buf, [])
      | esc :: rest2 =>
        if isSimpleEsc esc then
          readStringGo rest2 depth (buf ++ [escByte esc])
        else if isOct esc then
          let more := (rest2.take 2).takeWhile isOct
          match byteAppend buf (octVal (esc :: more)) with
          | none => none
          | some buf2 => readStringGo (rest2.drop more.length) depth buf2
        else
          readStringGo rest2 depth (buf ++ [esc])
    else if c = 0x28 then
      readStringGo rest (depth + 1) (buf ++ [c])
    else if c = 0x29 then
      if depth = 1 then some (buf, rest)
      else readStringGo rest (depth - 1) (buf ++ [c])
    else
      readStringGo rest depth (buf ++ [c])
termination_by data.length
decreasing_by
  all_goals simp_all [List.length_drop]
  all_goals omega

/-- read_string (lines 11-59), entered on the suffix just after the opening
parenthesis; the final buf.decode('latin-1', errors='ignore') is the
identity on byte lists, so the decoded text is the buffer itself. -/
def read_string (data : List Nat) : Option (List Nat × List Nat) :=
  readStringGo data 1 []

/-- skip_comment (lines 62-65): drop bytes until a LF or CR, which stays. -/
def skip_comment (data : List Nat) : List Nat :=
  data.dropWhile (fun c => c ≠ 10 && c ≠ 13)

/-- Loop of skip_dictionary (lines 71-81) on the suffix just past the
opening "<<", tracking "<<"/">>" nesting depth. -/
def skipDictGo (data : List Nat) (depth : Nat) : List Nat :=
  match data, depth with
  | l, 0 => l
  | [], _ => []
  | c :: rest, d + 1 =>
    if c = 0x25 then skipDictGo (skip_comment rest) (d + 1)
    else if c = 0x3c && rest.head? = some 0x3c then skipDictGo (rest.drop 1) (d + 2)
    else if c = 0x3e && rest.head? = some 0x3e then skipDictGo (rest.drop 1) d
    else skipDictGo rest (d + 1)
termination_by data.length
decreasing_by
  all_goals simp_all [skip_comment, List.length_drop]
  · exact Nat.lt_succ_of_le (List.dropWhile_sublist _).length_le
  all_goals omega

/-- skip_dictionary (lines 68-82), entered on the suffix starting at "<<". -/
def skip_dictionary (data : List Nat) : List Nat :=
  skipDictGo (data.drop 2) 1

/-- Value of one hex digit character, or `none` when the character is not a
hex digit (the failure bytes.fromhex raises on). -/
def hexDigitVal (c : Nat) : Option Nat :=
  if 0x30 ≤ c ∧ c ≤ 0x39 then some (c - 0x30)
  else if 0x41 ≤ c ∧ c ≤ 0x46 then some (c - 0x37)
  else if 0x61 ≤ c ∧ c ≤ 0x66 then some (c - 0x57)
  else none

/-- ASCII whitespace in the sense of bytes.fromhex (Py_ISSPACE): space,
tab, LF, VT, FF, CR.  Unlike the scanner's WHITESPACE set it contains the
vertical tab 0x0b and not the NUL byte, so a vertical tab collected by the
hex scanner is still skippable here. -/
def isASCIISpace (c : Nat) : Bool :=
  c = 0x20 || c = 0x09 || c = 0x0a || c = 0x0b || c = 0x0c || c = 0x0d

/-- bytes.fromhex (line 99), with the Python 3.7+ semantics the source
relies on (line 6 needs 3.7 for sys.stdout.reconfigure): ASCII whitespace
is skipped before each digit pair, then exactly two hex digits are read
with no skipping between them; anything else — a non-digit, whitespace
inside a pair, or a dangling single digit at the end — raises ValueError
(`none`). -/
def hexDecode : List Nat → Option (List Nat)
  | [] => some []
  | c :: rest =>
    if isASCIISpace c then hexDecode rest
    else
      match rest with
      | [] => none
      | b :: rest2 =>
        match hexDigitVal c, hexDigitVal b, hexDecode rest2 with
        | some x, some y, some tl => some ((16 * x + y) :: tl)
        | _, _, _ => none

/-- The hex characters read_hex_string collects (lines 87-92): everything
before the closing ">", with the scanner's whitespace set dropped. -/
def hexBody (data : List Nat) : List Nat :=
  ((data.drop 1).takeWhile (fun c => c ≠ 0x3e)).filter (fun c => ¬ isWS c)

/-- read_hex_string (lines 85-102), entered on the suffix starting at "<":
collects the characters up to ">" minus the scanner's whitespace set, pads
an odd count with a trailing "0", converts digit pairs to bytes (latin-1
decode is the identity); fromhex skips ASCII whitespace between pairs, and
any other stray character makes the conversion fail and the text empty.
Returns the text and the suffix past ">" (or the empty suffix when
unterminated). -/
def read_hex_string (data : List Nat) : List Nat × List Nat :=
  let hexChars := hexBody data
  let rest := (data.drop 1).dropWhile (fun c => c ≠ 0x3e)
  let rest2 := if rest.isEmpty then rest else rest.drop 1
  let padded := if hexChars.length % 2 = 1 then hexChars ++ [0x30] else hexChars
  match hexDecode padded with
  | some bs => (bs, rest2)
  | none => ([], rest2)

/-- c in '0'..'9'. -/
def isDigit (c : Nat) : Bool := 0x30 ≤ c && c ≤ 0x39

/-- Decimal value of a digit list. -/
def digitsToNat (ds : List Nat) : Nat := ds.foldl (fun a d => a * 10 + (d - 0x30)) 0

/-- float(token) of lines 144/192 on the tokens this scanner can produce,
followed by the is_integer coercion to int: both int and float results are
carried as one exact rational, since every consumer treats them alike.
Grammar modelled: optional sign, decimal digits with optional fraction and
optional decimal exponent; anything else is a parse failure (`none`).
(Python's float also accepts forms such as "inf", "nan" or underscore
separators; no content-stream token takes those shapes.) -/
def parseFloat? (cs : List Nat) : Option ℚ :=
  let sgncs1 : ℚ × List Nat :=
    match cs with
    | 0x2d :: t => (-1, t)
    | 0x2b :: t => (1, t)
    | t => (1, t)
  let sgn := sgncs1.1
  let cs1 := sgncs1.2
  let ip := cs1.takeWhile isDigit
  let cs2 := cs1.drop ip.length
  let fp : List Nat :=
    match cs2 with
    | 0x2e :: t => t.takeWhile isDigit
    | _ => []
  let cs3 : List Nat :=
    match cs2 with
    | 0x2e :: t => t.drop fp.length
    | t => t
  if ip.isEmpty && fp.isEmpty then none
  else
    let mant : ℚ := sgn * ((digitsToNat ip : ℚ) + (digitsToNat fp : ℚ) / (10 : ℚ) ^ fp.length)
    match cs3 with
    | [] => some mant
    | e :: t =>
      if e = 0x65 ∨ e = 0x45 then
        let esgnt1 : Bool × List Nat :=
          match t with
          | 0x2d :: u => (true, u)
          | 0x2b :: u => (false, u)
          | u => (false, u)
        let ed := esgnt1.2.takeWhile isDigit
        if ed.isEmpty ∨ ¬ (esgnt1.2.drop ed.length).isEmpty then none
        else
          let scale : ℚ := (10 : ℚ) ^ digitsToNat ed
          some (if esgnt1.1 then mant / scale else mant * scale)
      else none

/-- An array element (line 106): a Python str, an int/float, or a nested
list. -/
inductive PdfVal : Type where
  | text : List Nat → PdfVal
  | num : ℚ → PdfVal
  | arr : List PdfVal → PdfVal

/-- A token of tokenize (lines 152-196): the ('STRING', s), ('ARRAY', a),
('NUMBER', n) and ('NAME', s) pairs it yields. -/
inductive Token : Type where
  | string : List Nat → Token
  | array : List PdfVal → Token
  | number : ℚ → Token
  | name : List Nat → Token

/-- Outcome of a fuelled scanning loop: a normal return, a Python exception
escaping, or the iteration budget running out. -/
inductive Res (α : Type) : Type where
  | done : α → Res α
  | exn : Res α
  | spin : Res α

/-- Map over a normal result. -/
def Res.map (f : α → β) : Res α → Res β
  | Res.done a => Res.done (f a)
  | Res.exn => Res.exn
  | Res.spin => Res.spin

/-- Bytes allowed in a bare token (lines 139, 187): neither whitespace nor
one of b"[]()<>{}/". -/
def bareChar (c : Nat) : Bool := ¬ isWS c && ¬ isDelim c && c ≠ 0x2f

/-- Bytes allowed after "/" in an array's name skip (line 135): neither
whitespace nor one of b"[]()<>{}" (the slash is not excluded there). -/
def arrNameChar (c : Nat) : Bool := ¬ isWS c && ¬ isDelim c

/-- Loop of read_array (lines 108-148) on the suffix just past "[", with one
unit of fuel per loop iteration.  Returns the element list and the suffix
past "]" (or past the buffer end). -/
def readArrayGo (fuel : Nat) (data : List Nat) : Res (List PdfVal × List Nat) :=
  match fuel, data with
  | _, [] => Res.done ([], [])
  | 0, _ :: _ => Res.spin
  | f + 1, c :: rest =>
    if isWS c then readArrayGo f rest
    else if c = 0x5d then Res.done ([], rest)
    else if c = 0x25 then readArrayGo f (skip_comment rest)
    else if c = 0x28 then
      match read_string rest with
      | none => Res.exn
      | some (s, rest2) =>
        (readArrayGo f rest2).map (fun ar => (PdfVal.text s :: ar.1, ar.2))
    else if c = 0x5b then
      match readArrayGo f rest with
      | Res.exn => Res.exn
      | Res.spin => Res.spin
      | Res.done (sub, rest2) =>
        (readArrayGo f rest2).map (fun ar => (PdfVal.arr sub :: ar.1, ar.2))
    else if c = 0x3c then
      if rest.head? = some 0x3c then readArrayGo f (skip_dictionary (c :: rest))
      else
        let hr := read_hex_string (c :: rest)
        (readArrayGo f hr.2).map (fun ar => (PdfVal.text hr.1 :: ar.1, ar.2))
    else if c = 0x2f then
      readArrayGo f (rest.drop (rest.takeWhile arrNameChar).length)
    else
      let tok := (c :: rest).takeWhile bareChar
      let rest2 := (c :: rest).drop tok.length
      if tok.isEmpty then readArrayGo f rest2
      else
        match parseFloat? tok with
        | some q => (readArrayGo f rest2).map (fun ar => (PdfVal.num q :: ar.1, ar.2))
        | none => (readArrayGo f rest2).map (fun ar => (PdfVal.text tok :: ar.1, ar.2))

/-- read_array (lines 105-149), entered on the suffix starting at "[". -/
def read_array (fuel : Nat) (data : List Nat) : Res (List PdfVal × List Nat) :=
  readArrayGo fuel (data.drop 1)

/-- The name token read after "/" (lines 179-184): the leading slash is kept
on the yielded name.  Returns the token text and the suffix past it. -/
def readSlashName (rest : List Nat) : List Nat × List Nat :=
  let nm := rest.takeWhile bareChar
  (0x2f :: nm, rest.drop nm.length)

/-- Loop of tokenize (lines 155-196) with one unit of fuel per iteration:
the finite token list the generator yields, `Res.exn` when a string decode
raises, `Res.spin` when the budget runs out before the scan finishes. -/
def tokenizeGo (fuel : Nat) (data : List Nat) : Res (List Token) :=
  match fuel, data with
  | _, [] => Res.done []
  | 0, _ :: _ => Res.spin
  | f + 1, c :: rest =>
    if isWS c then tokenizeGo f rest
    else if c = 0x25 then tokenizeGo f (skip_comment rest)
    else if c = 0x28 then
      match read_string rest with
      | none => Res.exn
      | some (s, rest2) => (tokenizeGo f rest2).map (Token.string s :: ·)
    else if c = 0x3c then
      if rest.head? = some 0x3c then tokenizeGo f (skip_dictionary (c :: rest))
      else
        let hr := read_hex_string (c :: rest)
        (tokenizeGo f hr.2).map (Token.string hr.1 :: ·)
    else if c = 0x5b then
      match read_array f (c :: rest) with
      | Res.exn => Res.exn
      | Res.spin => Res.spin
      | Res.done (a, rest2) => (tokenizeGo f rest2).map (Token.array a :: ·)
    else if c = 0x2f then
      let nr := readSlashName rest
      (tokenizeGo f nr.2).map (Token.name nr.1 :: ·)
    else
      let tok := (c :: rest).takeWhile bareChar
      let rest2 := (c :: rest).drop tok.length
      if tok.isEmpty then tokenizeGo f rest2
      else
        match parseFloat? tok with
        | some q => (tokenizeGo f rest2).map (Token.number q :: ·)
        | none => (tokenizeGo f rest2).map (Token.name tok :: ·)

/-- tokenize (lines 152-196) from the start of a chunk. -/
def tokenize (fuel : Nat) (data : List Nat) : Res (List Token) :=
  tokenizeGo fuel data

/-- State of interpret (lines 199-202): the operand stack (top first), the
emitted lines, and the current-line accumulator. -/
structure InterpState : Type where
  stack : List Token
  lines : List (List Nat)
  current : List Nat

/-- flush (lines 204-210): append the accumulator to the line list when it
is non-empty and reset it; otherwise append an empty line only when
force_blank is set (no call site ever sets it). -/
def flush (forceBlank : Bool) (st : InterpState) : InterpState :=
  if st.current ≠ [] then
    { st with lines := st.lines ++ [st.current], current := [] }
  else if forceBlank then { st with lines := st.lines ++ [[]] }
  else st

/-- The TJ loop (lines 239-244): walk the array, appending text elements to
the accumulator and one space for each number below -120. -/
def tjFold (current : List Nat) (items : List PdfVal) : List Nat :=
  items.foldl
    (fun acc it =>
      match it with
      | PdfVal.text s => acc ++ s
      | PdfVal.num q => if q < -120 then acc ++ [0x20] else acc
      | PdfVal.arr _ => acc)
    current

/-- The operator dispatch of interpret (lines 218-256) for one NAME token. -/
def interpOp (st : InterpState) (op : List Nat) : InterpState :=
  if op = strBytes "Tj" then
    match st.stack with
    | Token.string s :: _ => { st with stack := [], current := st.current ++ s }
    | _ => { st with stack := [] }
  else if op = strBytes "\x27" then
    match st.stack with
    | Token.string s :: _ =>
      let st2 := flush false st
      { st2 with stack := [], current := st2.current ++ s }
    | _ => { st with stack := [] }
  else if op = strBytes "\x22" then
    match st.stack with
    | Token.string s :: _ :: _ :: _ =>
      let st2 := flush false st
      { st2 with stack := [], current := st2.current ++ s }
    | _ => { st with stack := [] }
  else if op = strBytes "TJ" then
    match st.stack with
    | Token.array a :: _ => { st with stack := [], current := tjFold st.current a }
    | _ => st
  else if op = strBytes "Td" ∨ op = strBytes "TD" ∨ op = strBytes "Tm" ∨
          op = strBytes "ET" ∨ op = strBytes "BT" then
    { flush false st with stack := [] }
  else
    { st with stack := [] }

/-- One token of interpret's main loop (lines 212-256): value tokens are
pushed, name tokens dispatch to the operator handler. -/
def interpStep (st : InterpState) (t : Token) : InterpState :=
  match t with
  | Token.string _ => { st with stack := t :: st.stack }
  | Token.array _ => { st with stack := t :: st.stack }
  | Token.number _ => { st with stack := t :: st.stack }
  | Token.name op => interpOp st op

/-- interpret (lines 199-258): fold the token list through the stack
machine, ending with the final flush of line 257. -/
def interpret (tokens : List Token) : List (List Nat) :=
  (flush false (tokens.foldl interpStep ⟨[], [], []⟩)).lines

/-- The Python whitespace set of str.strip() restricted to latin-1 code
points (line 278). -/
def pyIsSpace (c : Nat) : Bool :=
  c = 0x09 || c = 0x0a || c = 0x0b || c = 0x0c || c = 0x0d ||
  c = 0x1c || c = 0x1d || c = 0x1e || c = 0x1f || c = 0x20 ||
  c = 0x85 || c = 0xa0

/-- line.strip() (line 278): drop whitespace from both ends. -/
def pyStrip (l : List Nat) : List Nat :=
  ((l.dropWhile pyIsSpace).reverse.dropWhile pyIsSpace).reverse

/-- The cleaning loop of extract_text (lines 275-285): `prevBlank` is the
prev_blank flag. -/
def cleanLoop (prevBlank : Bool) : List (List Nat) → List (List Nat)
  | [] => []
  | line :: rest =>
    let text := pyStrip line
    if text.isEmpty then
      if prevBlank then cleanLoop true rest
      else [] :: cleanLoop true rest
    else text :: cleanLoop false rest

/-- "\n".join (line 286). -/
def joinNL : List (List Nat) → List Nat
  | [] => []
  | [l] => l
  | l :: rest => l ++ 0x0a :: joinNL rest

/-- The line-assembly stage of extract_text (lines 275-286), taking the
concatenated per-chunk line list. -/
def assemble (lines : List (List Nat)) : List Nat :=
  joinNL (cleanLoop false lines)

/-! ## Specification-side definitions

These restate parts of the specification's wording, to be compared with
the embedded code above. -/

/-- Spec wording for the TJ array walk: text elements are appended, a
number below -120 contributes one space, any other element nothing. -/
def tjRender : List PdfVal → List Nat
  | [] => []
  | PdfVal.text s :: rest => s ++ tjRender rest
  | PdfVal.num q :: rest => (if q < -120 then [0x20] else []) ++ tjRender rest
  | PdfVal.arr _ :: rest => tjRender rest

/-- Spec wording for the line assembly: collapse every run of one or more
consecutive empty lines into exactly one empty line. -/
def collapseEmptyRuns : List (List Nat) → List (List Nat)
  | [] => []
  | l :: rest =>
    if l.isEmpty then [] :: collapseEmptyRuns (rest.dropWhile List.isEmpty)
    else l :: collapseEmptyRuns rest
termination_by l => l.length
decreasing_by
  all_goals simp_all
  exact Nat.lt_succ_of_le (List.dropWhile_sublist _).length_le

/-- Balanced nested parentheses: every unescaped close has an earlier open
(the running surplus never goes negative) and the surplus ends at the start
value.  `parenOk w d` scans `w` with surplus `d`. -/
def parenOk : List Nat → Nat → Bool
  | [], d => d == 0
  | c :: rest, d =>
    if c = 0x28 then parenOk rest (d + 1)
    else if c = 0x29 then
      match d with
      | 0 => false
      | d' + 1 => parenOk rest d'
    else parenOk rest d

/-- Every octal escape in the byte list has a value below 256 (the inputs
on which the string decoder's bytearray.append cannot raise).  The scan
consumes bytes exactly as the decoder does. -/
def octSafe (data : List Nat) : Bool :=
  match data with
  | [] => true
  | c :: rest =>
    if c = 0x5c then
      match rest with
      | [] => true
      | esc :: rest2 =>
        if isSimpleEsc esc then octSafe rest2
        else if isOct esc then
          decide (octVal (esc :: (rest2.take 2).takeWhile isOct) < 256) &&
            octSafe (rest2.drop ((rest2.take 2).takeWhile isOct).length)
        else octSafe rest2
    else octSafe rest
termination_by data.length
decreasing_by
  all_goals simp_all [List.length_drop]
  all_goals omega

/-- The operator names the interpreter recognizes. -/
def textOps : List (List Nat) :=
  [strBytes "Tj", strBytes "\x27", strBytes "\x22", strBytes "TJ",
   strBytes "Td", strBytes "TD", strBytes "Tm", strBytes "BT", strBytes "ET"]

/-! ## Unfolding and helper lemmas -/

theorem readStringGo_nil (depth : Nat) (buf : List Nat) :
    readStringGo [] depth buf = some (buf, []) := by
  rw [readStringGo.eq_def]

theorem readStringGo_cons (c : Nat) (rest : List Nat) (depth : Nat) (buf : List Nat) :
    readStringGo (c :: rest) depth buf =
      if c = 0x5c then
        match rest with
        | [] => some (buf, [])
        | esc :: rest2 =>
          if isSimpleEsc esc then readStringGo rest2 depth (buf ++ [escByte esc])
          else if isOct esc then
            match byteAppend buf (octVal (esc :: (rest2.take 2).takeWhile isOct)) with
            | none => none
            | some buf2 =>
              readStringGo (rest2.drop ((rest2.take 2).takeWhile isOct).length) depth buf2
          else readStringGo rest2 depth (buf ++ [esc])
      else if c = 0x28 then readStringGo rest (depth + 1) (buf ++ [c])
      else if c = 0x29 then
        if depth = 1 then some (buf, rest) else readStringGo rest (depth - 1) (buf ++ [c])
      else readStringGo rest depth (buf ++ [c]) := by
  rw [readStringGo.eq_def]

theorem octSafe_nil : octSafe [] = true := by
  rw [octSafe.eq_def]

theorem octSafe_cons (c : Nat) (rest : List Nat) :
    octSafe (c :: rest) =
      if c = 0x5c then
        match rest with
        | [] => true
        | esc :: rest2 =>
          if isSimpleEsc esc then octSafe rest2
          else if isOct esc then
            decide (octVal (esc :: (rest2.take 2).takeWhile isOct) < 256) &&
              octSafe (rest2.drop ((rest2.take 2).takeWhile isOct).length)
          else octSafe rest2
      else octSafe rest := by
  rw [octSafe.eq_def]

/-- A list that starts with `a` differs from any list with another head. -/
theorem consNe (a : Nat) (l1 l2 : List Nat) (h : l2.head? ≠ some a) : a :: l1 ≠ l2 :=
  fun he => h (he ▸ rfl)

theorem tjFold_eq_render : ∀ (items : List PdfVal) (cur : List Nat),
    tjFold cur items = cur ++ tjRender items := by
  intro items
  induction items with
  | nil => intro cur; simp [tjFold, tjRender]
  | cons it rest ih =>
    intro cur
    cases it with
    | text s =>
      simp only [tjFold, List.foldl_cons] at ih ⊢
      rw [ih, tjRender, List.append_assoc]
    | num q =>
      simp only [tjFold, List.foldl_cons] at ih ⊢
      by_cases h : q < -120
      · rw [if_pos h, ih, tjRender, if_pos h, List.append_assoc]
      · rw [if_neg h, ih, tjRender, if_neg h, List.nil_append]
    | arr a =>
      simp only [tjFold, List.foldl_cons] at ih ⊢
      rw [ih, tjRender]

/-! ## Claims -/

/-- C1 counterexample: after the operator token TJ arrives with a String
(not an Array) on top of the stack, the operand stack is NOT empty — the
TJ handler clears the stack only inside its precondition branch (lines
237-245) — and a later Tj consumes the stale string. -/
theorem C1_TJ_leaves_stack :
    (List.foldl interpStep ⟨[], [], []⟩
        [Token.string (strBytes "x"), Token.name (strBytes "TJ")]).stack =
      [Token.string (strBytes "x")] ∧
    interpret [Token.string (strBytes "x"), Token.name (strBytes "TJ"),
        Token.name (strBytes "Tj")] =
      [strBytes "x"] :=
  ⟨rfl, rfl⟩

/-- C1 amended: after every operator token the operand stack is empty,
except a TJ whose precondition is not met (top of stack not an Array),
which has no effect at all — no text effect, and the stack keeps its
contents; Tj, the quote operators and all unrecognized names do clear the
stack even when their preconditions fail. -/
theorem C1_stack_clearing (st : InterpState) (op : List Nat) :
    (interpOp st op).stack = [] ∨ (op = strBytes "TJ" ∧ interpOp st op = st) := by
  unfold interpOp
  split_ifs with h1 h2 h3 h4 h5
  · rcases st.stack with _ | ⟨t, r⟩
    · left; rfl
    · cases t <;> (left; rfl)
  · rcases st.stack with _ | ⟨t, r⟩
    · left; rfl
    · cases t <;> (left; rfl)
  · rcases st.stack with _ | ⟨t, r⟩
    · left; rfl
    · rcases r with _ | ⟨t2, _ | ⟨t3, r3⟩⟩ <;> cases t <;> (left; rfl)
  · rcases hs : st.stack with _ | ⟨t, r⟩
    · right; exact ⟨h4, rfl⟩
    · cases t with
      | array a => left; rfl
      | string s => right; exact ⟨h4, rfl⟩
      | number q => right; exact ⟨h4, rfl⟩
      | name n => right; exact ⟨h4, rfl⟩
  · left; rfl
  · left; rfl

/-- C2: tokenization does NOT terminate for every input byte sequence: on
a chunk consisting of the single byte "]" (0x5d) the bare-token scan of
lines 186-196 matches zero bytes, yields nothing and leaves the position
unchanged, so the loop never finishes — the run exhausts every iteration
budget.  The same zero-progress loop exists in read_array (lines 138-148),
reached at "[)" — so array parsing can also fail to reach its "]" or the
end of data. -/
theorem C2_tokenize_diverges :
    (∀ fuel : Nat, tokenize fuel [0x5d] = Res.spin) ∧
    (∀ fuel : Nat, read_array fuel [0x5b, 0x29] = Res.spin) := by
  constructor
  · intro fuel
    induction fuel with
    | zero => rfl
    | succ f ih => calc
        tokenize (f + 1) [0x5d] = tokenize f [0x5d] := rfl
        _ = Res.spin := ih
  · intro fuel
    induction fuel with
    | zero => rfl
    | succ f ih => calc
        read_array (f + 1) [0x5b, 0x29] = read_array f [0x5b, 0x29] := rfl
        _ = Res.spin := ih

/-- C3: an octal escape yields int(digits, 8) appended by bytearray.append,
which raises ValueError for values above 255: "\777" (value 511) makes
read_string raise (modelled as `none`) instead of appending a byte, while
in-range escapes like "\101\102\103" do append those bytes ("ABC"). -/
theorem C3_octal_escape :
    read_string (strBytes "\\777)") = none ∧
    read_string (strBytes "\\101\\102\\103)") = some (strBytes "ABC", []) := by
  constructor
  · simp [read_string, readStringGo_cons, isSimpleEsc, isOct, octVal, byteAppend, strBytes]
  · simp [read_string, readStringGo_cons, readStringGo_nil, isSimpleEsc, isOct, octVal,
      byteAppend, escByte, strBytes]

/-- C4: executing TJ with an Array on top of the stack empties the stack,
keeps the emitted lines, and extends the accumulator by the array's
rendering: each text element appended, each number strictly below -120
contributing exactly one space, every other number nothing; in particular
[(Hello) -250 (World)] TJ yields the line "Hello World" and
[(Hello) -50 (World)] TJ yields "HelloWorld". -/
theorem C4_TJ_spacing :
    (∀ (a : List PdfVal) (stk : List Token) (lines : List (List Nat)) (cur : List Nat),
      interpOp ⟨Token.array a :: stk, lines, cur⟩ (strBytes "TJ") =
        ⟨[], lines, cur ++ tjRender a⟩) ∧
    interpret [Token.array [PdfVal.text (strBytes "Hello"), PdfVal.num (-250),
        PdfVal.text (strBytes "World")], Token.name (strBytes "TJ")] =
      [strBytes "Hello World"] ∧
    interpret [Token.array [PdfVal.text (strBytes "Hello"), PdfVal.num (-50),
        PdfVal.text (strBytes "World")], Token.name (strBytes "TJ")] =
      [strBytes "HelloWorld"] := by
  refine ⟨?_, by decide, by decide⟩
  intro a stk lines cur
  unfold interpOp
  rw [if_neg (by decide), if_neg (by decide), if_neg (by decide), if_pos rfl]
  show (⟨[], lines, tjFold cur a⟩ : InterpState) = _
  rw [tjFold_eq_render]

theorem readStringGo_balanced :
    ∀ (w : List Nat) (d : Nat) (buf rest : List Nat), 0x5c ∉ w → parenOk w d = true →
      readStringGo (w ++ 0x29 :: rest) (d + 1) buf = some (buf ++ w, rest) := by
  intro w
  induction w with
  | nil =>
    intro d buf rest _ hp
    have hd : d = 0 := by simpa [parenOk] using hp
    subst hd
    rw [List.nil_append, readStringGo_cons]
    simp
  | cons c w' ih =>
    intro d buf rest hb hp
    have hc : c ≠ 0x5c := fun h => hb (h ▸ List.mem_cons_self _ _)
    have hb' : 0x5c ∉ w' := fun h => hb (List.mem_cons_of_mem _ h)
    rw [List.cons_append, readStringGo_cons, if_neg hc]
    by_cases h28 : c = 0x28
    · subst h28
      rw [if_pos rfl]
      have hp' : parenOk w' (d + 1) = true := by simpa [parenOk] using hp
      rw [ih (d + 1) (buf ++ [0x28]) rest hb' hp']
      simp
    · rw [if_neg h28]
      by_cases h29 : c = 0x29
      · subst h29
        cases d with
        | zero => simp [parenOk] at hp
        | succ d' =>
          have hp' : parenOk w' d' = true := by simpa [parenOk] using hp
          rw [if_pos rfl, if_neg (by omega : ¬ (d' + 1 + 1 = 1)),
            show d' + 1 + 1 - 1 = d' + 1 by omega, ih d' (buf ++ [0x29]) rest hb' hp']
          simp
      · rw [if_neg h29]
        have hp' : parenOk w' d = true := by simpa [parenOk, h28, h29] using hp
        rw [ih d (buf ++ [c]) rest hb' hp']
        simp

/-- C5: a literal string whose unescaped parentheses nest in a balanced
way is decoded with those inner parentheses kept literally: the decoder
returns exactly the content bytes, and only the final close at outer
depth is dropped, with the scan continuing just past it. -/
theorem C5_nested_parens (w rest : List Nat) (hb : 0x5c ∉ w)
    (hp : parenOk w 0 = true) :
    read_string (w ++ 0x29 :: rest) = some (w, rest) := by
  have h := readStringGo_balanced w 0 [] rest hb hp
  simpa [read_string] using h

/-- C5 witness: decoding "a(b)c)" yields "a(b)c" with the close consumed. -/
theorem C5_nested_parens_witness :
    0x5c ∉ strBytes "a(b)c" ∧ parenOk (strBytes "a(b)c") 0 = true ∧
    read_string (strBytes "a(b)c" ++ 0x29 :: []) = some (strBytes "a(b)c", []) :=
  ⟨by decide, by decide, C5_nested_parens (strBytes "a(b)c") [] (by decide) (by decide)⟩

/-- Lines already emitted stay, and a flush can only add the (non-empty)
accumulator. -/
theorem flush_false_linesOK (st : InterpState) (h : ∀ l ∈ st.lines, l ≠ []) :
    ∀ l ∈ (flush false st).lines, l ≠ [] := by
  unfold flush
  by_cases hc : st.current ≠ []
  · rw [if_pos hc]
    intro l hl
    rcases List.mem_append.mp hl with h1 | h2
    · exact h l h1
    · rw [List.mem_singleton.mp h2]; exact hc
  · rw [if_neg hc]
    simpa using h

/-- Every operator handler leaves the line list unchanged or passes it
through one flush. -/
theorem interpOp_lines (st : InterpState) (op : List Nat) :
    (interpOp st op).lines = st.lines ∨ (interpOp st op).lines = (flush false st).lines := by
  unfold interpOp
  split_ifs with h1 h2 h3 h4 h5
  · rcases st.stack with _ | ⟨t, r⟩
    · left; rfl
    · cases t <;> (left; rfl)
  · rcases st.stack with _ | ⟨t, r⟩
    · left; rfl
    · cases t <;> first | (left; rfl) | (right; rfl)
  · rcases st.stack with _ | ⟨t, r⟩
    · left; rfl
    · rcases r with _ | ⟨t2, _ | ⟨t3, r3⟩⟩ <;> cases t <;> first | (left; rfl) | (right; rfl)
  · rcases st.stack with _ | ⟨t, r⟩
    · left; rfl
    · cases t <;> (left; rfl)
  · right; rfl
  · left; rfl

theorem interpStep_linesOK (st : InterpState) (t : Token)
    (h : ∀ l ∈ st.lines, l ≠ []) : ∀ l ∈ (interpStep st t).lines, l ≠ [] := by
  cases t with
  | string s => exact h
  | array a => exact h
  | number q => exact h
  | name op =>
    show ∀ l ∈ (interpOp st op).lines, l ≠ []
    rcases interpOp_lines st op with he | he
    · rw [he]; exact h
    · rw [he]; exact flush_false_linesOK st h

theorem foldl_interpStep_linesOK :
    ∀ (ts : List Token) (st : InterpState), (∀ l ∈ st.lines, l ≠ []) →
      ∀ l ∈ (List.foldl interpStep st ts).lines, l ≠ [] := by
  intro ts
  induction ts with
  | nil => intro st h; exact h
  | cons t rest ih =>
    intro st h
    exact ih (interpStep st t) (interpStep_linesOK st t h)

/-- C6: a flush appends the accumulator to the line list only when it is
non-empty and then resets it; flushing an empty accumulator changes
nothing (force_blank defaults to false and no call site sets it); the
interpreter ends with a final flush, and consequently every line it
returns for a chunk is non-empty. -/
theorem C6_flush :
    (∀ st : InterpState, st.current ≠ [] →
      flush false st = { st with lines := st.lines ++ [st.current], current := [] }) ∧
    (∀ st : InterpState, st.current = [] → flush false st = st) ∧
    (∀ (ts : List Token), ∀ l ∈ interpret ts, l ≠ []) := by
  refine ⟨?_, ?_, ?_⟩
  · intro st h
    unfold flush
    rw [if_pos h]
  · intro st h
    unfold flush
    rw [if_neg (by simpa using h)]
    rfl
  · intro ts
    exact flush_false_linesOK _
      (foldl_interpStep_linesOK ts ⟨[], [], []⟩ (by simp))

/-- C6 witness: a non-empty accumulator is emitted and reset, an empty one
is a no-op, and a concrete interpreted line is non-empty. -/
theorem C6_flush_witness :
    flush false ⟨[], [], strBytes "a"⟩ = ⟨[], [strBytes "a"], []⟩ ∧
    flush false ⟨[], [strBytes "a"], []⟩ = ⟨[], [strBytes "a"], []⟩ ∧
    strBytes "x" ≠ [] :=
  ⟨C6_flush.1 ⟨[], [], strBytes "a"⟩ (by decide),
   C6_flush.2.1 ⟨[], [strBytes "a"], []⟩ rfl,
   C6_flush.2.2 [Token.string (strBytes "x"), Token.name (strBytes "Tj")]
     (strBytes "x") (by decide)⟩

theorem hexDecode_bad : ∀ (n : Nat) (l : List Nat), l.length ≤ n →
    ∀ c ∈ l, hexDigitVal c = none → isASCIISpace c = false → hexDecode l = none := by
  intro n
  induction n with
  | zero =>
    intro l hl c hc _ _
    rw [List.length_eq_zero.mp (Nat.le_zero.mp hl)] at hc
    simp at hc
  | succ n ih =>
    intro l hl c hc hbad hws
    rcases l with _ | ⟨a, _ | ⟨b, rest2⟩⟩
    · simp at hc
    · have hca : c = a := by simpa using hc
      subst hca
      rw [hexDecode.eq_2, if_neg (by simp [hws])]
    · rw [hexDecode.eq_3]
      by_cases ha : isASCIISpace a
      · rw [if_pos ha]
        have hc' : c ∈ b :: rest2 := by
          rcases List.mem_cons.mp hc with rfl | h2
          · rw [hws] at ha; simp at ha
          · exact h2
        exact ih (b :: rest2) (by simp at hl ⊢; omega) c hc' hbad hws
      · rw [if_neg ha]
        rcases List.mem_cons.mp hc with rfl | hc2
        · simp [hbad]
        · rcases List.mem_cons.mp hc2 with rfl | hc3
          · simp only [hbad]
            split <;> simp_all
          · have hrest : hexDecode rest2 = none :=
              ih rest2 (by simp at hl; omega) c hc3 hbad hws
            simp only [hrest]
            split <;> simp_all

/-- C7 counterexample: the vertical tab 0x0b is not in the scanner's
whitespace set, so it is collected, and it is not a hex digit — yet
"<48\x0b\x0b65>" decodes to "He", not to the empty string, because
bytes.fromhex skips ASCII whitespace between digit pairs instead of
failing on it. -/
theorem C7_hex_ws_counterexample :
    0x0b ∈ hexBody (strBytes "<48\x0b\x0b65>") ∧
    hexDigitVal 0x0b = none ∧
    read_hex_string (strBytes "<48\x0b\x0b65>") = (strBytes "He", []) := by
  decide

/-- C7 amended: a hex string with an odd number of collected characters is
padded with a trailing "0" before pairing — "<480>" decodes to the bytes
0x48 0x00 — and whenever a collected character is neither a hex digit nor
ASCII whitespace (which fromhex skips between digit pairs; of it only the
vertical tab survives the scanner's filter) the decoded text is empty,
with no error escaping. -/
theorem C7_hex :
    read_hex_string (strBytes "<480>") = (strBytes "H" ++ [0x00], []) ∧
    (∀ (l : List Nat), ∀ c ∈ hexBody l, hexDigitVal c = none → isASCIISpace c = false →
      (read_hex_string l).1 = []) := by
  refine ⟨by decide, ?_⟩
  intro l c hc hbad hws
  unfold read_hex_string
  have hmem : c ∈ (if (hexBody l).length % 2 = 1 then hexBody l ++ [0x30] else hexBody l) := by
    split
    · exact List.mem_append_left _ hc
    · exact hc
  have hdec := hexDecode_bad _ _ le_rfl c hmem hbad hws
  simp only [hdec]

/-- C7 witness: "<4G>" collects the non-digit, non-whitespace "G" and
decodes to the empty string. -/
theorem C7_hex_witness :
    0x47 ∈ hexBody (strBytes "<4G>") ∧ (read_hex_string (strBytes "<4G>")).1 = [] :=
  ⟨by decide, C7_hex.2 (strBytes "<4G>") 0x47 (by decide) (by decide) (by decide)⟩

theorem readStringGo_total_of_octSafe :
    ∀ (n : Nat) (l : List Nat) (d : Nat) (buf : List Nat), l.length ≤ n →
      octSafe l = true → ∃ out, readStringGo l d buf = some out := by
  intro n
  induction n with
  | zero =>
    intro l d buf hl _
    rw [List.length_eq_zero.mp (Nat.le_zero.mp hl)]
    exact ⟨(buf, []), readStringGo_nil d buf⟩
  | succ n ih =>
    intro l d buf hl hs
    rcases l with _ | ⟨c, rest⟩
    · exact ⟨(buf, []), readStringGo_nil d buf⟩
    · rw [readStringGo_cons]
      rw [octSafe_cons] at hs
      by_cases hc : c = 0x5c
      · rw [if_pos hc]
        rw [if_pos hc] at hs
        rcases rest with _ | ⟨esc, rest2⟩
        · exact ⟨(buf, []), rfl⟩
        · simp only at hs ⊢
          by_cases he : isSimpleEsc esc = true
          · rw [if_pos he] at hs ⊢
            refine ih rest2 d (buf ++ [escByte esc]) ?_ hs
            simp at hl; omega
          · rw [if_neg he] at hs ⊢
            by_cases ho : isOct esc = true
            · rw [if_pos ho] at hs ⊢
              rw [Bool.and_eq_true] at hs
              obtain ⟨hv, hrest⟩ := hs
              have hv' := of_decide_eq_true hv
              rw [byteAppend, if_pos hv']
              refine ih _ d _ ?_ hrest
              have h1 : (rest2.drop ((rest2.take 2).takeWhile isOct).length).length ≤
                  rest2.length := by
                rw [List.length_drop]; omega
              simp at hl; omega
            · rw [if_neg ho] at hs ⊢
              refine ih rest2 d (buf ++ [esc]) ?_ hs
              simp at hl; omega
      · rw [if_neg hc]
        rw [if_neg hc] at hs
        have hrest : rest.length ≤ n := by simp at hl; omega
        by_cases h28 : c = 0x28
        · rw [if_pos h28]; exact ih rest (d + 1) (buf ++ [c]) hrest hs
        · rw [if_neg h28]
          by_cases h29 : c = 0x29
          · rw [if_pos h29]
            by_cases hd : d = 1
            · rw [if_pos hd]; exact ⟨(buf, rest), rfl⟩
            · rw [if_neg hd]; exact ih rest (d - 1) (buf ++ [c]) hrest hs
          · rw [if_neg h29]; exact ih rest d (buf ++ [c]) hrest hs

/-- C8 counterexample: the unterminated literal string "\777" (octal
escape of value 511, no closing parenthesis, depth still 1 at buffer end)
makes read_string raise ValueError (modelled `none`) instead of returning
the partial text. -/
theorem C8_unterminated_raises : read_string (strBytes "\\777") = none := by
  simp [read_string, readStringGo_cons, isSimpleEsc, isOct, octVal, byteAppend, strBytes]

/-- C8 amended: an unterminated literal string returns the partial text
accumulated up to the end of the buffer without raising, provided no octal
escape in it has a value of 256 or more (such an escape raises ValueError
whether or not the string is terminated; see C3): on every octal-safe
input the decoder returns normally, and e.g. the unterminated "ab(c"
(depth 2 at buffer end) returns exactly the partial text "ab(c". -/
theorem C8_unterminated_amended :
    (∀ data : List Nat, octSafe data = true → ∃ out, read_string data = some out) ∧
    read_string (strBytes "ab(c") = some (strBytes "ab(c", []) := by
  constructor
  · intro data hs
    exact readStringGo_total_of_octSafe data.length data 1 [] le_rfl hs
  · simp [read_string, readStringGo_cons, readStringGo_nil, isSimpleEsc, isOct, strBytes]

/-- C8 witness: the octal-safe unterminated input "x(" decodes without
raising. -/
theorem C8_unterminated_witness :
    octSafe (strBytes "x(") = true ∧ ∃ out, read_string (strBytes "x(") = some out :=
  ⟨by show octSafe [0x78, 0x28] = true
      rw [octSafe_cons, octSafe_cons, octSafe_nil]
      rfl,
   C8_unterminated_amended.1 (strBytes "x(")
     (by show octSafe [0x78, 0x28] = true
         rw [octSafe_cons, octSafe_cons, octSafe_nil]
         rfl)⟩

theorem collapseEmptyRuns_nil : collapseEmptyRuns [] = [] := by
  rw [collapseEmptyRuns.eq_def]

theorem collapseEmptyRuns_cons (l : List Nat) (rest : List (List Nat)) :
    collapseEmptyRuns (l :: rest) =
      if l.isEmpty then [] :: collapseEmptyRuns (rest.dropWhile List.isEmpty)
      else l :: collapseEmptyRuns rest := by
  rw [collapseEmptyRuns.eq_def]

theorem cleanLoop_false_cons_pos (l : List Nat) (rest : List (List Nat))
    (ht : (pyStrip l).isEmpty = true) :
    cleanLoop false (l :: rest) = [] :: cleanLoop true rest := by
  simp [cleanLoop, ht]

theorem cleanLoop_true_cons_pos (l : List Nat) (rest : List (List Nat))
    (ht : (pyStrip l).isEmpty = true) :
    cleanLoop true (l :: rest) = cleanLoop true rest := by
  simp [cleanLoop, ht]

theorem cleanLoop_cons_neg (b : Bool) (l : List Nat) (rest : List (List Nat))
    (ht : (pyStrip l).isEmpty = false) :
    cleanLoop b (l :: rest) = pyStrip l :: cleanLoop false rest := by
  simp [cleanLoop, ht]

theorem cleanLoop_eq_collapse : ∀ lines : List (List Nat),
    cleanLoop false lines = collapseEmptyRuns (lines.map pyStrip) ∧
    cleanLoop true lines = collapseEmptyRuns ((lines.map pyStrip).dropWhile List.isEmpty) := by
  intro lines
  induction lines with
  | nil => simp [cleanLoop, collapseEmptyRuns_nil]
  | cons l rest ih =>
    by_cases ht : (pyStrip l).isEmpty
    · constructor
      · rw [cleanLoop_false_cons_pos l rest ht, List.map_cons, collapseEmptyRuns_cons,
          if_pos ht]
        exact congrArg ([] :: ·) ih.2
      · rw [cleanLoop_true_cons_pos l rest ht, List.map_cons,
          List.dropWhile_cons_of_pos ht]
        exact ih.2
    · have hf : (pyStrip l).isEmpty = false := by simpa using ht
      constructor
      · rw [cleanLoop_cons_neg false l rest hf, List.map_cons, collapseEmptyRuns_cons,
          if_neg (by simp [hf])]
        exact congrArg (pyStrip l :: ·) ih.1
      · rw [cleanLoop_cons_neg true l rest hf, List.map_cons,
          List.dropWhile_cons_of_neg (by simp [hf]), collapseEmptyRuns_cons,
          if_neg (by simp [hf])]
        exact congrArg (pyStrip l :: ·) ih.1

theorem cleanLoop_true_head : ∀ (rest : List (List Nat)) (x : List Nat),
    (cleanLoop true rest).head? = some x → x ≠ [] := by
  intro rest
  induction rest with
  | nil => intro x hx; simp [cleanLoop] at hx
  | cons l r ih =>
    intro x hx
    by_cases ht : (pyStrip l).isEmpty
    · rw [cleanLoop_true_cons_pos l r ht] at hx
      exact ih x hx
    · have hf : (pyStrip l).isEmpty = false := by simpa using ht
      rw [cleanLoop_cons_neg true l r hf, List.head?_cons, Option.some.injEq] at hx
      subst hx
      simpa using ht

theorem cleanLoop_chain : ∀ lines : List (List Nat),
    List.Chain' (fun a b => a ≠ [] ∨ b ≠ []) (cleanLoop false lines) ∧
    List.Chain' (fun a b => a ≠ [] ∨ b ≠ []) (cleanLoop true lines) := by
  intro lines
  induction lines with
  | nil => simp [cleanLoop]
  | cons l rest ih =>
    by_cases ht : (pyStrip l).isEmpty
    · constructor
      · rw [cleanLoop_false_cons_pos l rest ht, List.chain'_cons']
        exact ⟨fun y hy => Or.inr (cleanLoop_true_head rest y hy), ih.2⟩
      · rw [cleanLoop_true_cons_pos l rest ht]
        exact ih.2
    · have hf : (pyStrip l).isEmpty = false := by simpa using ht
      constructor
      · rw [cleanLoop_cons_neg false l rest hf, List.chain'_cons']
        exact ⟨fun y _ => Or.inl (by simpa using ht), ih.1⟩
      · rw [cleanLoop_cons_neg true l rest hf, List.chain'_cons']
        exact ⟨fun y _ => Or.inl (by simpa using ht), ih.1⟩

/-- C9: the line assembly strips every line, collapses each run of
consecutive stripped-empty lines to exactly one empty line (so no two
adjacent entries of the cleaned list are both empty), and joins with
single line breaks; three logically empty lines in a row collapse to one
empty line of output. -/
theorem C9_line_assembly :
    (∀ lines : List (List Nat),
      cleanLoop false lines = collapseEmptyRuns (lines.map pyStrip)) ∧
    (∀ lines : List (List Nat),
      List.Chain' (fun a b => a ≠ [] ∨ b ≠ []) (cleanLoop false lines)) ∧
    assemble [strBytes "x", strBytes " ", [], strBytes "\t", strBytes "y"] =
      strBytes "x\n\ny" :=
  ⟨fun lines => (cleanLoop_eq_collapse lines).1,
   fun lines => (cleanLoop_chain lines).1,
   by decide⟩

/-- C10: a name token read from a "/"-prefixed identifier keeps its
leading slash, so it never equals a recognized operator name, and
interpreting it takes the default handler: the operand stack is cleared
while the accumulator and the emitted lines are untouched. -/
theorem C10_slash_names (l : List Nat) (st : InterpState) :
    (readSlashName l).1.head? = some 0x2f ∧
    (∀ op ∈ textOps, (readSlashName l).1 ≠ op) ∧
    interpOp st (readSlashName l).1 = { st with stack := [] } := by
  refine ⟨rfl, ?_, ?_⟩
  · intro op hop
    show 0x2f :: l.takeWhile bareChar ≠ op
    simp only [textOps, List.mem_cons, List.not_mem_nil, or_false] at hop
    rcases hop with rfl | rfl | rfl | rfl | rfl | rfl | rfl | rfl | rfl <;>
      exact consNe _ _ _ (by decide)
  · show interpOp st (0x2f :: l.takeWhile bareChar) = _
    unfold interpOp
    rw [if_neg (consNe _ _ _ (by decide)), if_neg (consNe _ _ _ (by decide)),
      if_neg (consNe _ _ _ (by decide)), if_neg (consNe _ _ _ (by decide)),
      if_neg ?hgrp]
    case hgrp =>
      rintro (h | h | h | h | h) <;> exact consNe _ _ _ (by decide) h

/-- C10 witness: the name token "/F1" differs from the operator "Tj" and
its interpretation clears a non-empty stack, keeping lines and
accumulator. -/
theorem C10_slash_names_witness :
    (readSlashName (strBytes "F1")).1 ≠ strBytes "Tj" ∧
    interpOp ⟨[Token.number 5], [strBytes "z"], strBytes "q"⟩
        (readSlashName (strBytes "F1")).1 =
      ⟨[], [strBytes "z"], strBytes "q"⟩ :=
  ⟨(C10_slash_names (strBytes "F1") ⟨[], [], []⟩).2.1 (strBytes "Tj") (by decide),
   (C10_slash_names (strBytes "F1")
      ⟨[Token.number 5], [strBytes "z"], strBytes "q"⟩).2.2⟩
